import Mathlib

/-!
Verification development for the byte-cache repository (tiered byte-oriented
cache: in-memory LRU tier, read-only sideload tier, read-write disk tier).

The filesystem-backed layer (src/fs.rs) is shallowly embedded as pure
functions over an explicit directory state: a directory is an association
list from file names to file data.  Byte payloads are `List Nat`.  The
tokio semaphore that implements capacity admission is embedded as a count
of currently available permits.  Environmental nondeterminism that the code
meets through the OS (statvfs results, transient write failures) is passed
in explicitly through an `Env` record; the surrounding tokio timeout /
spawn_blocking plumbing is not modelled (a single sequential caller is
assumed).
-/

/-- Error kinds mirroring the `std::io::ErrorKind` values the source uses. -/
inductive ErrKind where
  | invalidInput
  | notFound
  | permissionDenied
  | alreadyExists
  | storageFull
  | wouldBlock
  | readOnlyFs
  | timedOut
  | otherErr
deriving DecidableEq, Repr

/-- One file in a store root: its byte content, whether the directory entry
is a symbolic link, and the age in seconds of its modification timestamp
(used by the stale-lock check). -/
structure FileData where
  content : List Nat
  isSymlink : Bool
  age : Nat
deriving DecidableEq, Repr

/-- A regular file freshly written by `put`. -/
def mkFile (d : List Nat) : FileData := ⟨d, false, 0⟩

/-- A store root directory: file name to file data. -/
abbrev Dir := List (String × FileData)

/-- Look a file up by name (first match). -/
def fsLookup : Dir → String → Option FileData
  | [], _ => none
  | (m, fd) :: rest, n => if m = n then some fd else fsLookup rest n

/-- Remove a file by name (models `std::fs::remove_file` succeeding). -/
def fsRemove : Dir → String → Dir
  | [], _ => []
  | (m, fd) :: rest, n => if m = n then fsRemove rest n else (m, fd) :: fsRemove rest n

/-- Create or truncate a file (models create/rename-onto). -/
def fsSet (fs : Dir) (n : String) (fd : FileData) : Dir := (n, fd) :: fsRemove fs n

theorem fsLookup_fsRemove_self (fs : Dir) (n : String) :
    fsLookup (fsRemove fs n) n = none := by
  induction fs with
  | nil => rfl
  | cons e rest ih =>
    obtain ⟨m, fd⟩ := e
    by_cases h : m = n <;> simp [fsRemove, fsLookup, h, ih]

theorem fsLookup_fsRemove_ne (fs : Dir) {m n : String} (h : m ≠ n) :
    fsLookup (fsRemove fs n) m = fsLookup fs m := by
  induction fs with
  | nil => rfl
  | cons e rest ih =>
    obtain ⟨a, fd⟩ := e
    by_cases ha : a = n
    · subst ha
      simp [fsRemove, fsLookup, Ne.symm h, ih]
    · by_cases hm : a = m
      · subst hm
        simp [fsRemove, fsLookup, ha]
      · simp [fsRemove, fsLookup, ha, hm, ih]

theorem fsLookup_fsSet_self (fs : Dir) (n : String) (fd : FileData) :
    fsLookup (fsSet fs n fd) n = some fd := by
  simp [fsSet, fsLookup]

theorem fsLookup_fsSet_ne (fs : Dir) {m n : String} (fd : FileData) (h : m ≠ n) :
    fsLookup (fsSet fs n fd) m = fsLookup fs m := by
  simp [fsSet, fsLookup, Ne.symm h, fsLookup_fsRemove_ne fs h]

theorem fsRemove_absent (fs : Dir) (n : String) (h : fsLookup fs n = none) :
    fsRemove fs n = fs := by
  induction fs with
  | nil => rfl
  | cons e rest ih =>
    obtain ⟨m, fd⟩ := e
    by_cases hm : m = n
    · simp [fsLookup, hm] at h
    · simp [fsLookup, hm] at h
      simp [fsRemove, hm, ih h]

/-! ## Key validation (`validate_key`, src/fs.rs) -/

/-- UTF-8 byte length of a string, as Rust's `str::len`. -/
def byteLen (cs : List Char) : Nat := cs.foldl (fun n c => n + c.utf8Size) 0

/-- Path components on unix, as produced by Rust's `Path::components`. -/
inductive PComp where
  | rootDir
  | curDir
  | parentDir
  | normal (seg : List Char)
deriving DecidableEq, Repr

/-- Split a character list at every `'/'`. -/
def splitSlash : List Char → List (List Char)
  | [] => [[]]
  | c :: rest =>
    if c = '/' then [] :: splitSlash rest
    else
      match splitSlash rest with
      | s :: ss => (c :: s) :: ss
      | [] => [c] :: []

/-- Classify one non-empty path segment. -/
def segToComp (seg : List Char) : PComp :=
  if seg = ['.'] then .curDir
  else if seg = ['.', '.'] then .parentDir
  else .normal seg

/-- Rust `Path::components` for a unix path given as a character list:
a leading slash yields `rootDir`; empty segments are dropped; `.` segments
are normalised away except at the start of a relative path. -/
def pathComponents (cs : List Char) : List PComp :=
  if cs = [] then []
  else
    let segs := (splitSlash cs).filter (fun s => !s.isEmpty)
    let comps := segs.map segToComp
    if cs.head? = some '/' then
      .rootDir :: comps.filter (fun c => decide (c ≠ PComp.curDir))
    else
      match comps with
      | .curDir :: rest => .curDir :: rest.filter (fun c => decide (c ≠ PComp.curDir))
      | l => l.filter (fun c => decide (c ≠ PComp.curDir))

def compIsNormal : PComp → Bool
  | .normal _ => true
  | _ => false

/-- Does the name start with a `'.'` (Rust `str::starts_with('.')`)? -/
def headIsDot : List Char → Bool
  | '.' :: _ => true
  | _ => false

/-- `validate_key` from src/fs.rs: rejects the empty key, keys longer than
255 bytes, keys whose path components are not all plain names, keys holding
`'/'` or NUL, and keys starting with `'.'`.  Every rejection carries the
`InvalidInput` error kind. -/
def validateKey (key : String) : Except ErrKind Unit :=
  if key = "" then .error .invalidInput
  else if 255 < byteLen key.data then .error .invalidInput
  else if !(pathComponents key.data).all compIsNormal then .error .invalidInput
  else if key.data.contains '/' || key.data.contains (Char.ofNat 0) then .error .invalidInput
  else if headIsDot key.data then .error .invalidInput
  else .ok ()

theorem validateKey_cases (key : String) :
    validateKey key = .ok () ∨ validateKey key = .error .invalidInput := by
  unfold validateKey
  repeat' split
  all_goals simp

theorem validateKey_ok_facts (key : String) (h : validateKey key = .ok ()) :
    key ≠ "" ∧ byteLen key.data ≤ 255 ∧ key.data.contains '/' = false ∧
      key.data.contains (Char.ofNat 0) = false ∧ headIsDot key.data = false := by
  unfold validateKey at h
  repeat' split at h
  all_goals simp_all

/-! ## Artifact names (`with_extension`, src/fs.rs `put`)

The source derives the per-key lock and temp paths with
`file_path.with_extension(".lock")` / `file_path.with_extension(".tmp")`.
Rust's `Path::with_extension` replaces the file name's extension: the new
name is `file_stem ++ "." ++ ext`.  `file_stem` is the portion of the name
before the final `'.'`, except that a name with no `'.'`, or a name whose
only `'.'` is the leading character, is its own stem. -/

/-- On the reversed name: split off the (reversed) extension at the first
`'.'` seen from the end.  `some (revExt, revStem)` means
`reversed = revExt ++ '.' :: revStem` with no `'.'` in `revExt`. -/
def extSplitRev : List Char → Option (List Char × List Char)
  | [] => none
  | c :: cs =>
    if c = '.' then some ([], cs)
    else
      match extSplitRev cs with
      | some (e, s) => some (c :: e, s)
      | none => none

theorem extSplitRev_eq : ∀ (cs e s : List Char), extSplitRev cs = some (e, s) →
    cs = e ++ '.' :: s ∧ '.' ∉ e := by
  intro cs
  induction cs with
  | nil => intro e s h; simp [extSplitRev] at h
  | cons c rest ih =>
    intro e s h
    by_cases hc : c = '.'
    · subst hc
      simp [extSplitRev] at h
      obtain ⟨he, hs⟩ := h
      subst he; subst hs
      simp
    · simp [extSplitRev, hc] at h
      cases hx : extSplitRev rest with
      | none => rw [hx] at h; simp at h
      | some p =>
        obtain ⟨e', s'⟩ := p
        rw [hx] at h
        simp at h
        obtain ⟨he, hs⟩ := h
        obtain ⟨hrest, hdot⟩ := ih e' s' hx
        subst he; subst hs
        constructor
        · simp [hrest]
        · intro hmem
          rcases List.mem_cons.mp hmem with hh | hh
          · exact hc hh.symm
          · exact hdot hh

theorem extSplitRev_none : ∀ (cs : List Char), extSplitRev cs = none → '.' ∉ cs := by
  intro cs
  induction cs with
  | nil => intro _ h; simp at h
  | cons c rest ih =>
    intro h hmem
    by_cases hc : c = '.'
    · subst hc; simp [extSplitRev] at h
    · simp only [extSplitRev, if_neg hc] at h
      cases hx : extSplitRev rest with
      | none =>
        rcases List.mem_cons.mp hmem with hh | hh
        · exact hc hh.symm
        · exact ih hx hh
      | some p => obtain ⟨e', s'⟩ := p; rw [hx] at h; simp at h

/-- Rust `Path::file_stem` on a single-component file name. -/
def rustStemChars (cs : List Char) : List Char :=
  match extSplitRev cs.reverse with
  | none => cs
  | some (_, revStem) => if revStem = [] then cs else revStem.reverse

/-- Rust `Path::with_extension ext` (for non-empty `ext`) on a
single-component file name: `file_stem ++ "." ++ ext`. -/
def setExtChars (cs ext : List Char) : List Char :=
  if ext = [] then rustStemChars cs else rustStemChars cs ++ '.' :: ext

/-- The lock-file name `put` uses for a key: `with_extension(".lock")`. -/
def lockName (k : String) : String := ⟨setExtChars k.data ".lock".data⟩

/-- The temp-file name `put` uses for a key: `with_extension(".tmp")`. -/
def tmpName (k : String) : String := ⟨setExtChars k.data ".tmp".data⟩

theorem rustStemChars_eq_none (cs : List Char) (hx : extSplitRev cs.reverse = none) :
    rustStemChars cs = cs := by
  unfold rustStemChars
  rw [hx]

theorem rustStemChars_eq_some (cs e s : List Char)
    (hx : extSplitRev cs.reverse = some (e, s)) :
    rustStemChars cs = if s = [] then cs else s.reverse := by
  unfold rustStemChars
  rw [hx]

theorem ne_setExtChars (cs ext : List Char) (hd : '.' ∈ ext) :
    cs ≠ setExtChars cs ext := by
  intro he
  have hne : ext ≠ [] := by rintro rfl; simp at hd
  rw [setExtChars, if_neg hne] at he
  cases hx : extSplitRev cs.reverse with
  | none =>
    rw [rustStemChars_eq_none cs hx] at he
    have hlen := congrArg List.length he
    simp at hlen
  | some p =>
    obtain ⟨e, s⟩ := p
    rw [rustStemChars_eq_some cs e s hx] at he
    by_cases hs : s = []
    · rw [if_pos hs] at he
      have hlen := congrArg List.length he
      simp at hlen
    · rw [if_neg hs] at he
      obtain ⟨hcs, hdot⟩ := extSplitRev_eq cs.reverse e s hx
      have h2 : cs = s.reverse ++ '.' :: e.reverse := by
        have h3 := congrArg List.reverse hcs
        simpa using h3
      rw [h2] at he
      have h4 : ('.' :: e.reverse : List Char) = '.' :: ext :=
        List.append_cancel_left he
      have h5 : e.reverse = ext := by injection h4
      rw [← h5] at hd
      exact hdot (List.mem_reverse.mp hd)

theorem key_ne_lockName (k : String) : k ≠ lockName k := by
  intro h
  have hd := congrArg String.data h
  exact ne_setExtChars k.data ".lock".data (by decide) hd

theorem key_ne_tmpName (k : String) : k ≠ tmpName k := by
  intro h
  have hd := congrArg String.data h
  exact ne_setExtChars k.data ".tmp".data (by decide) hd

theorem lockName_ne_tmpName (k : String) : lockName k ≠ tmpName k := by
  intro h
  have hd := congrArg String.data h
  simp only [lockName, tmpName, setExtChars] at hd
  rw [if_neg (by decide), if_neg (by decide)] at hd
  have h4 := List.append_cancel_left hd
  simp at h4

/-! ## The shared read path (`FsCache::<T>::get`, src/fs.rs)

`get` validates the key, checks existence, opens the file, takes a shared
advisory lock released by a drop guard, and reads the contents; every
failure (including the 5-second timeout) collapses to `none`.  The trace
component records the filesystem operations performed, in order. -/

/-- Observable filesystem operations, for stating "touches the filesystem"
properties. -/
inductive FsOp where
  | existsCheck
  | openFile
  | readMeta
  | sharedLock
  | exclusiveLock
  | unlockFile
  | readFile
  | createDirOp
  | createNewFile
  | removeFileOp
  | statvfsOp
  | writeTmp
  | renameTmp
deriving DecidableEq, Repr

/-- `FsCache::get` over the files of a store root, with its trace of
filesystem operations.  An invalid key returns `none` before any
filesystem operation. -/
def fsGet (fs : Dir) (key : String) : Option (List Nat) × List FsOp :=
  match validateKey key with
  | .error _ => (none, [])
  | .ok _ =>
    match fsLookup fs key with
    | none => (none, [.existsCheck])
    | some fd =>
      (some fd.content, [.existsCheck, .openFile, .sharedLock, .readFile, .unlockFile])

/-- The value component of `fsGet`. -/
def fsGetVal (fs : Dir) (key : String) : Option (List Nat) := (fsGet fs key).1

/-! ## Read-only construction (`FsCache::<Read>::read`, src/fs.rs) -/

/-- The state of the path handed to the read-only constructor. -/
structure RoPath where
  pathExists : Bool
  readonly : Bool
deriving DecidableEq, Repr

/-- `FsCache::<Read>::read`: fails with `NotFound` when the path does not
exist; otherwise opens the path, reads its permission metadata, and fails
with `PermissionDenied` unless the permissions are read-only.  The trace
records the filesystem operations performed. -/
def readConstruct (p : RoPath) : Except ErrKind Unit × List FsOp :=
  if p.pathExists then
    if p.readonly then (.ok (), [.existsCheck, .openFile, .readMeta])
    else (.error .permissionDenied, [.existsCheck, .openFile, .readMeta])
  else (.error .notFound, [.existsCheck])

/-! ## Startup recovery and read-write construction (src/fs.rs) -/

/-- `is_lock_file_stale`: a lock file is stale when its modification time
is more than 300 seconds (5 minutes) old. -/
def isLockFileStale (fd : FileData) : Bool := decide (300 < fd.age)

/-- Rust `str::ends_with`, via reversed character lists. -/
def revStarts : List Char → List Char → Bool
  | _, [] => true
  | [], _ :: _ => false
  | c :: cs, d :: ds => c == d && revStarts cs ds

/-- Does `s` end with `suffix`? -/
def strEndsWith (s suffix : String) : Bool := revStarts s.data.reverse suffix.data.reverse

/-- The per-entry decision of `cleanup_temp_files`: `.tmp` files are always
removed; `.lock` files are removed only when stale; everything else is
kept. -/
def keepEntry (e : String × FileData) : Bool :=
  if strEndsWith e.1 ".tmp" then false
  else if strEndsWith e.1 ".lock" then !isLockFileStale e.2
  else true

/-- `cleanup_temp_files`: remove every `*.tmp` and every stale `*.lock`
from the store root. -/
def cleanupTempFiles (fs : Dir) : Dir := fs.filter keepEntry

/-- The read-write store: root contents, directory existence and
permission, the configured item limit, and the number of admission permits
currently available in the semaphore. -/
structure RwCache where
  files : Dir
  dirExists : Bool
  dirReadonly : Bool
  limit : Nat
  permits : Nat
deriving DecidableEq, Repr

/-- `FsCache::<ReadWrite>::write`: create the directory (mode 0700) when it
does not exist; otherwise run startup recovery and, when `limit > 0`,
consume `min(entryCount, limit)` permits up front for the pre-existing
entries (counted after recovery). -/
def writeConstruct (dirExists : Bool) (dirReadonly : Bool) (fs : Dir) (limit : Nat) :
    RwCache :=
  if !dirExists then
    ⟨[], true, false, limit, limit⟩
  else
    let fs' := cleanupTempFiles fs
    let consumed := if 0 < limit then min fs'.length limit else 0
    ⟨fs', true, dirReadonly, limit, limit - consumed⟩

/-! ## The write path (`FsCache::<ReadWrite>::put`, src/fs.rs)

Environmental outcomes the code obtains from the OS are supplied through
`Env`: the statvfs result used by the free-space check, and the outcome of
each numbered attempt of the bounded write loop (`none` means the attempt's
open/chmod/lock/write/sync/read-back/verify/rename sequence succeeded;
`some e` means it failed with error kind `e`).  The EMFILE open retry
inside an attempt is folded into the attempt's outcome. -/

structure Env where
  statvfsOk : Bool
  availSpace : Nat
  attemptErr : Nat → Option ErrKind

/-- Error kinds `put` treats as permanent (no retry). -/
def isPermanent : ErrKind → Bool
  | .permissionDenied => true
  | .notFound => true
  | .invalidInput => true
  | .alreadyExists => true
  | _ => false

/-- The result of `put`: the returned value, the store afterwards, and the
trace of filesystem operations. -/
structure PutOut where
  res : Except ErrKind Unit
  stAfter : RwCache
  ops : List FsOp
deriving Repr

/-- The bounded write loop of `put` (`for attempt in 1..=MAX_RETRIES`),
over the remaining attempt numbers (initially `[1, 2, 3]`).  Returns the
loop's result, the root contents afterwards, and whether the acquired
admission permit (if any) was dropped — and therefore released back to the
semaphore — rather than kept or forgotten.  On a successful attempt the
temp file has been written and atomically renamed onto the key, the
cleanup guard (now holding the permit) is leaked, and the lock file is
removed (`remove_file(..)?`, so its failure becomes the returned error).
On a permanent error the lock file is removed (`?`: a failure there is
returned instead, dropping — releasing — the permit), the permit is
forgotten, and the drop of the cleanup guard removes the lock and temp
files.  When the final attempt fails, the temp file is removed, the permit
forgotten, and the lock file removed.  A transient error with attempts
remaining sleeps and retries. -/
def putLoop (files : Dir) (key lock tmp : String) (d : List Nat) (env : Env) :
    List Nat → Except ErrKind Unit × Dir × Bool
  | [] =>
    (.error .otherErr, fsRemove (fsRemove files lock) tmp, false)
  | attempt :: rest =>
    match env.attemptErr attempt with
    | none =>
      let files1 := fsSet (fsRemove files tmp) key (mkFile d)
      if (fsLookup files1 lock).isSome then
        (.ok (), fsRemove files1 lock, false)
      else
        (.error .notFound, files1, false)
    | some e =>
      if isPermanent e then
        if (fsLookup files lock).isSome then
          (.error e, fsRemove (fsRemove files lock) tmp, false)
        else
          (.error .notFound, fsRemove (fsRemove files lock) tmp, true)
      else if rest.isEmpty then
        if (fsLookup (fsRemove files tmp) lock).isSome then
          (.error e, fsRemove (fsRemove files tmp) lock, false)
        else
          (.error .notFound, fsRemove (fsRemove files tmp) lock, false)
      else
        putLoop files key lock tmp d env rest

/-- The body of `put` after validation and after the directory has been
found (or made) writable: symlink guard on the temp path, exclusive
creation of the per-key lock file, admission (a permit is needed only when
no live file exists for the key and `limit > 0`; exhaustion fails with
`StorageFull`), the free-space check for non-empty payloads (failure
forgets the permit), and the bounded write loop. -/
def putBlocking (st : RwCache) (key : String) (d : List Nat) (env : Env) : PutOut :=
  let lock := lockName key
  let tmp := tmpName key
  let symBad := ((fsLookup st.files tmp).map FileData.isSymlink).getD false
  if symBad then
    ⟨.error .invalidInput, st, [.existsCheck, .readMeta]⟩
  else if (fsLookup st.files lock).isSome then
    ⟨.error .alreadyExists,
      { st with files := fsRemove (fsRemove st.files lock) tmp },
      [.existsCheck, .createNewFile, .removeFileOp]⟩
  else
    let files1 := fsSet st.files lock (mkFile [])
    let needPermit := (fsLookup files1 key).isNone && decide (0 < st.limit)
    if needPermit && decide (st.permits = 0) then
      ⟨.error .storageFull,
        { st with files := fsRemove (fsRemove files1 lock) tmp },
        [.existsCheck, .createNewFile, .readMeta, .removeFileOp]⟩
    else
      let permits1 := if needPermit then st.permits - 1 else st.permits
      if !d.isEmpty && env.statvfsOk && decide (env.availSpace < d.length + 4096) then
        ⟨.error .storageFull,
          { st with files := fsRemove (fsRemove files1 lock) tmp, permits := permits1 },
          [.existsCheck, .createNewFile, .readMeta, .statvfsOp, .removeFileOp]⟩
      else
        match putLoop files1 key lock tmp d env [1, 2, 3] with
        | (res, files2, released) =>
          ⟨res,
            { st with
              files := files2,
              permits := if needPermit && released then permits1 + 1 else permits1 },
            [.existsCheck, .createNewFile, .readMeta, .statvfsOp, .writeTmp,
              .renameTmp, .removeFileOp]⟩

/-- `FsCache::<ReadWrite>::put`: validate the key (before any filesystem
operation), create the store directory when absent, reject a read-only
directory, then run the blocking body.  The surrounding 5-second tokio
timeout and task-join plumbing are not modelled. -/
def put (st : RwCache) (key : String) (d : List Nat) (env : Env) : PutOut :=
  match validateKey key with
  | .error e => ⟨.error e, st, []⟩
  | .ok _ =>
    if !st.dirExists then
      let o := putBlocking { st with dirExists := true } key d env
      ⟨o.res, o.stAfter, .existsCheck :: .createDirOp :: o.ops⟩
    else if st.dirReadonly then
      ⟨.error .readOnlyFs, st, [.existsCheck, .readMeta]⟩
    else
      putBlocking st key d env

/-- Sequentially `put` a list of key/payload pairs, stopping at the first
failure. -/
def putAll (st : RwCache) (env : Env) : List (String × List Nat) → Except ErrKind Unit × RwCache
  | [] => (.ok (), st)
  | (k, d) :: rest =>
    let o := put st k d env
    match o.res with
    | .ok _ => putAll o.stAfter env rest
    | .error e => (.error e, o.stAfter)

/-! ## The tiered orchestrator (`OmneCache`, src/lib.rs)

The in-memory tier is the `lru` crate's bounded `LruCache<String, Vec<u8>>`
(an external collaborator): a capacity plus a recency list, most recent
first.  `get` moves a hit to the front; `put` inserts at the front,
evicting beyond the capacity.  Deserialisation (`C::Value::try_from`) is
modelled as the identity on the byte payload. -/

structure MemCache where
  cap : Nat
  entries : List (String × List Nat)
deriving DecidableEq, Repr

def memRemove : List (String × List Nat) → String → List (String × List Nat)
  | [], _ => []
  | (m, v) :: rest, k => if m = k then memRemove rest k else (m, v) :: memRemove rest k

def lruFind : List (String × List Nat) → String → Option (List Nat)
  | [], _ => none
  | (m, v) :: rest, k => if m = k then some v else lruFind rest k

/-- `LruCache::get`: a hit is moved to the front. -/
def lruGet (m : MemCache) (k : String) : Option (List Nat) × MemCache :=
  match lruFind m.entries k with
  | some v => (some v, ⟨m.cap, (k, v) :: memRemove m.entries k⟩)
  | none => (none, m)

/-- `LruCache::put`: insert at the front, evicting beyond the capacity. -/
def lruPut (m : MemCache) (k : String) (v : List Nat) : MemCache :=
  ⟨m.cap, ((k, v) :: memRemove m.entries k).take m.cap⟩

/-- The error the orchestrator's `get` returns when no tier has the key
(`CacheableError::NotFound`). -/
inductive CErr where
  | notFound
deriving DecidableEq, Repr

/-- The orchestrator: an optional memory tier, an optional read-only
sideload tier (its store root), and an optional read-write disk tier. -/
structure OmneCacheM where
  memory : Option MemCache
  sideload : Option Dir
  disk : Option RwCache
deriving Repr

/-- The tiers a `get` call queried, in order. -/
inductive Tier where
  | mem
  | side
  | disk
deriving DecidableEq, Repr

/-- The disk-tier step of `OmneCache::get`: query the disk cache when
present; on a hit, write the value into the memory tier when enabled. -/
def ocGetDisk (c : OmneCacheM) (key : String) (tr : List Tier) :
    Except CErr (List Nat) × OmneCacheM × List Tier :=
  match c.disk with
  | some dc =>
    match fsGetVal dc.files key with
    | some v =>
      match c.memory with
      | some m => (.ok v, { c with memory := some (lruPut m key v) }, tr ++ [Tier.disk])
      | none => (.ok v, c, tr ++ [Tier.disk])
    | none => (.error .notFound, c, tr ++ [Tier.disk])
  | none => (.error .notFound, c, tr)

/-- The sideload-tier step of `OmneCache::get`: query the sideload cache
when present; on a hit, write the value into the memory tier when enabled;
on a miss fall through to the disk tier. -/
def ocGetSide (c : OmneCacheM) (key : String) (tr : List Tier) :
    Except CErr (List Nat) × OmneCacheM × List Tier :=
  match c.sideload with
  | some sl =>
    match fsGetVal sl key with
    | some v =>
      match c.memory with
      | some m => (.ok v, { c with memory := some (lruPut m key v) }, tr ++ [Tier.side])
      | none => (.ok v, c, tr ++ [Tier.side])
    | none => ocGetDisk c key (tr ++ [Tier.side])
  | none => ocGetDisk c key tr

/-- `OmneCache::get`: check the memory tier, then the sideload tier, then
the disk tier, stopping at the first hit and promoting a durable-tier hit
into the memory tier; when no tier has the key, return `NotFound`. -/
def ocGet (c : OmneCacheM) (key : String) :
    Except CErr (List Nat) × OmneCacheM × List Tier :=
  match c.memory with
  | some m =>
    match lruGet m key with
    | (some v, m') => (.ok v, { c with memory := some m' }, [Tier.mem])
    | (none, m') => ocGetSide { c with memory := some m' } key [Tier.mem]
  | none => ocGetSide c key []

/-! ## Configuration conversion (src/configuration, `OmneCache::try_from`)

Filesystem facts the conversions consult (does a path exist, is it
read-only, what does the directory hold) are supplied by a `world`
function from paths to `none` (missing) or `some (readonly, contents)`. -/

structure MemoryCfgM where
  disabled : Bool
  items : Option Nat
deriving DecidableEq, Repr

structure SideloadCfgM where
  disabled : Bool
  path : Option String
  items : Option Nat
deriving DecidableEq, Repr

structure DiskCfgM where
  disabled : Bool
  path : Option String
  items : Option Nat
deriving DecidableEq, Repr

structure OmneCacheCfgM where
  memory : Option MemoryCfgM
  sideload : Option SideloadCfgM
  disk : Option DiskCfgM
deriving Repr

/-- `MemoryCfg::lru_cache`: fails when disabled, when `items` is absent,
or when `items` is zero. -/
def lruCacheOf (m : MemoryCfgM) : Except ErrKind MemCache :=
  if m.disabled then .error .otherErr
  else
    match m.items with
    | some n => if 0 < n then .ok ⟨n, []⟩ else .error .invalidInput
    | none => .error .invalidInput

/-- `SideloadCfg::as_fs_cache`: fails when disabled or when the path is
absent or missing on disk; otherwise behaves as the read-only constructor
(`FsCache::read`), requiring read-only permissions. -/
def sideAsFsCache (s : SideloadCfgM) (world : String → Option (Bool × Dir)) :
    Except ErrKind Dir :=
  if s.disabled then .error .otherErr
  else
    match s.path with
    | some p =>
      match world p with
      | none => .error .notFound
      | some (ro, files) => if ro then .ok files else .error .permissionDenied
    | none => .error .invalidInput

/-- `DiskCfg::as_fs_cache`: fails when disabled or when path or items are
absent; otherwise builds the read-write store (`FsCache::write`). -/
def diskAsFsCache (dcfg : DiskCfgM) (world : String → Option (Bool × Dir)) :
    Except ErrKind RwCache :=
  if dcfg.disabled then .error .otherErr
  else
    match dcfg.path, dcfg.items with
    | some p, some n =>
      match world p with
      | none => .ok (writeConstruct false false [] n)
      | some (ro, files) => .ok (writeConstruct true ro files n)
    | _, _ => .error .invalidInput

/-- `OmneCache::try_from`: a present-and-enabled memory config is converted
(errors propagate) while a disabled or absent one yields no memory tier; a
present sideload or disk config is converted unconditionally, so its
conversion error — including the disabled error — propagates. -/
def tryFrom (cfg : OmneCacheCfgM) (world : String → Option (Bool × Dir)) :
    Except ErrKind OmneCacheM :=
  match (match cfg.memory with
         | some m => if !m.disabled then (lruCacheOf m).map some else .ok none
         | none => .ok none) with
  | .error e => .error e
  | .ok memory =>
    match (match cfg.sideload with
           | some s => (sideAsFsCache s world).map some
           | none => .ok none) with
    | .error e => .error e
    | .ok sideload =>
      match (match cfg.disk with
             | some dk => (diskAsFsCache dk world).map some
             | none => .ok none) with
      | .error e => .error e
      | .ok disk => .ok ⟨memory, sideload, disk⟩

/-! ## Facts about the write loop and the shapes of `put` -/

theorem putLoop_succ (files : Dir) (key lock tmp : String) (d : List Nat) (env : Env)
    (hat : env.attemptErr 1 = none)
    (hl : (fsLookup (fsSet (fsRemove files tmp) key (mkFile d)) lock).isSome = true) :
    putLoop files key lock tmp d env [1, 2, 3] =
      (.ok (), fsRemove (fsSet (fsRemove files tmp) key (mkFile d)) lock, false) := by
  simp only [putLoop, hat, hl, if_true]

theorem putLoop_ok : ∀ (attempts : List Nat) (files : Dir) (key lock tmp : String)
    (d : List Nat) (env : Env),
    (putLoop files key lock tmp d env attempts).1 = .ok () →
    key ≠ lock →
    fsLookup (putLoop files key lock tmp d env attempts).2.1 key = some (mkFile d) := by
  intro attempts
  induction attempts with
  | nil =>
    intro files key lock tmp d env h hne
    simp [putLoop] at h
  | cons a rest ih =>
    intro files key lock tmp d env h hne
    simp only [putLoop] at h ⊢
    cases hx : env.attemptErr a with
    | none =>
      rw [hx] at h
      dsimp only at h ⊢
      by_cases hl : (fsLookup (fsSet (fsRemove files tmp) key (mkFile d)) lock).isSome = true
      · simp only [hl, if_true]
        rw [fsLookup_fsRemove_ne _ hne, fsLookup_fsSet_self]
      · simp only [Bool.not_eq_true] at hl
        simp [hl] at h
    | some e =>
      rw [hx] at h
      dsimp only at h ⊢
      by_cases hp : isPermanent e = true
      · rw [if_pos hp] at h
        split at h <;> simp at h
      · rw [if_neg hp] at h ⊢
        by_cases hr : rest.isEmpty = true
        · rw [if_pos hr] at h
          split at h <;> simp at h
        · rw [if_neg hr] at h ⊢
          exact ih files key lock tmp d env h hne

/-- The free-space condition of `put` is false when statvfs fails or
reports enough space. -/
theorem space_cond_false (d : List Nat) (env : Env)
    (hsp : env.statvfsOk = true → d.length + 4096 ≤ env.availSpace) :
    (!d.isEmpty && env.statvfsOk && decide (env.availSpace < d.length + 4096)) = false := by
  cases hsv : env.statvfsOk with
  | false => simp [hsv]
  | true =>
    have hle := hsp hsv
    simp [Nat.not_lt.mpr hle]

/-- Shape of a successful `put` of a new key: the key's file holds exactly
the payload, the lock and temp artifacts are gone, and one admission
permit has been consumed. -/
theorem put_fresh (st : RwCache) (k : String) (d : List Nat) (env : Env)
    (hv : validateKey k = .ok ())
    (hde : st.dirExists = true) (hro : st.dirReadonly = false)
    (hkey : fsLookup st.files k = none)
    (hlock : fsLookup st.files (lockName k) = none)
    (htmp : fsLookup st.files (tmpName k) = none)
    (hlim : 0 < st.limit) (hperm : 0 < st.permits)
    (hspc : (!d.isEmpty && env.statvfsOk && decide (env.availSpace < d.length + 4096)) = false)
    (hat : env.attemptErr 1 = none) :
    (put st k d env).res = .ok () ∧
      (put st k d env).stAfter =
        ⟨(k, mkFile d) :: st.files, true, false, st.limit, st.permits - 1⟩ := by
  obtain ⟨f, de, ro, lim, pm⟩ := st
  simp only at hde hro hkey hlock htmp hlim hperm
  subst hde; subst hro
  have hknl := key_ne_lockName k
  have hknt := key_ne_tmpName k
  have hlnt := lockName_ne_tmpName k
  have h1 : fsSet f (lockName k) (mkFile []) = (lockName k, mkFile []) :: f := by
    rw [fsSet, fsRemove_absent f _ hlock]
  have hnp : (fsLookup (fsSet f (lockName k) (mkFile [])) k).isNone = true := by
    rw [fsLookup_fsSet_ne f _ hknl, hkey]; rfl
  have hl2 : decide (0 < lim) = true := decide_eq_true hlim
  have hpz : decide (pm = 0) = false :=
    decide_eq_false (Nat.pos_iff_ne_zero.mp hperm)
  have hloop : putLoop (fsSet f (lockName k) (mkFile [])) k (lockName k) (tmpName k) d env
      [1, 2, 3] = (.ok (), (k, mkFile d) :: f, false) := by
    have hl : (fsLookup (fsSet (fsRemove (fsSet f (lockName k) (mkFile [])) (tmpName k)) k
        (mkFile d)) (lockName k)).isSome = true := by
      rw [fsLookup_fsSet_ne _ _ (Ne.symm hknl)]
      rw [h1]
      simp only [fsRemove, if_neg hlnt, fsRemove_absent f _ htmp]
      simp [fsLookup]
    rw [putLoop_succ _ _ _ _ _ _ hat hl]
    rw [h1]
    simp only [fsRemove, if_neg hlnt, fsRemove_absent f _ htmp]
    simp only [fsSet, fsRemove, if_neg (Ne.symm hknl), fsRemove_absent f _ hkey]
    simp only [fsRemove, if_neg hknl, if_pos rfl, fsRemove_absent f _ hlock]
    simp
  unfold put
  rw [hv]
  simp only [Bool.not_true, Bool.false_eq_true, if_false, ite_false]
  unfold putBlocking
  simp only [htmp, Option.map_none', Option.getD_none, hlock, Option.isSome_none,
    Bool.false_eq_true, if_false, hnp, hl2, Bool.and_self, Bool.true_and, hpz,
    Bool.and_false, hspc, hloop]
  simp

/-- Shape of a successful `put` over an existing key: the file is replaced
and no admission permit is consumed. -/
theorem put_overwrite (st : RwCache) (k : String) (d : List Nat) (env : Env) (fd0 : FileData)
    (hv : validateKey k = .ok ())
    (hde : st.dirExists = true) (hro : st.dirReadonly = false)
    (hkey : fsLookup st.files k = some fd0)
    (hlock : fsLookup st.files (lockName k) = none)
    (htmp : fsLookup st.files (tmpName k) = none)
    (hspc : (!d.isEmpty && env.statvfsOk && decide (env.availSpace < d.length + 4096)) = false)
    (hat : env.attemptErr 1 = none) :
    (put st k d env).res = .ok () ∧
      (put st k d env).stAfter =
        ⟨(k, mkFile d) :: fsRemove st.files k, true, false, st.limit, st.permits⟩ := by
  obtain ⟨f, de, ro, lim, pm⟩ := st
  simp only at hde hro hkey hlock htmp
  subst hde; subst hro
  have hknl := key_ne_lockName k
  have hknt := key_ne_tmpName k
  have hlnt := lockName_ne_tmpName k
  have h1 : fsSet f (lockName k) (mkFile []) = (lockName k, mkFile []) :: f := by
    rw [fsSet, fsRemove_absent f _ hlock]
  have hnp : (fsLookup (fsSet f (lockName k) (mkFile [])) k).isNone = false := by
    rw [fsLookup_fsSet_ne f _ hknl, hkey]; rfl
  have hloop : putLoop (fsSet f (lockName k) (mkFile [])) k (lockName k) (tmpName k) d env
      [1, 2, 3] = (.ok (), (k, mkFile d) :: fsRemove f k, false) := by
    have hl : (fsLookup (fsSet (fsRemove (fsSet f (lockName k) (mkFile [])) (tmpName k)) k
        (mkFile d)) (lockName k)).isSome = true := by
      rw [fsLookup_fsSet_ne _ _ (Ne.symm hknl)]
      rw [h1]
      simp only [fsRemove, if_neg hlnt, fsRemove_absent f _ htmp]
      simp [fsLookup]
    rw [putLoop_succ _ _ _ _ _ _ hat hl]
    rw [h1]
    simp only [fsRemove, if_neg hlnt, fsRemove_absent f _ htmp]
    simp only [fsSet, fsRemove, if_neg (Ne.symm hknl)]
    have hrem : fsLookup (fsRemove f k) (lockName k) = none := by
      rw [fsLookup_fsRemove_ne f (Ne.symm hknl), hlock]
    simp only [fsRemove, if_neg hknl, if_pos rfl, fsRemove_absent _ _ hrem]
    simp
  unfold put
  rw [hv]
  simp only [Bool.not_true, Bool.false_eq_true, if_false, ite_false]
  unfold putBlocking
  simp only [htmp, Option.map_none', Option.getD_none, hlock, Option.isSome_none,
    Bool.false_eq_true, if_false, hnp, Bool.false_and, hspc, hloop]
  simp

/-- Shape of `put` of a new key against an exhausted admission pool: the
`StorageFull` rejection leaves the store unchanged. -/
theorem put_full (st : RwCache) (k : String) (d : List Nat) (env : Env)
    (hv : validateKey k = .ok ())
    (hde : st.dirExists = true) (hro : st.dirReadonly = false)
    (hkey : fsLookup st.files k = none)
    (hlock : fsLookup st.files (lockName k) = none)
    (htmp : fsLookup st.files (tmpName k) = none)
    (hlim : 0 < st.limit) (hperm : st.permits = 0) :
    (put st k d env).res = .error .storageFull ∧ (put st k d env).stAfter = st := by
  obtain ⟨f, de, ro, lim, pm⟩ := st
  simp only at hde hro hkey hlock htmp hlim hperm
  subst hde; subst hro; subst hperm
  have hknl := key_ne_lockName k
  have hlnt := lockName_ne_tmpName k
  have h1 : fsSet f (lockName k) (mkFile []) = (lockName k, mkFile []) :: f := by
    rw [fsSet, fsRemove_absent f _ hlock]
  have hnp : (fsLookup (fsSet f (lockName k) (mkFile [])) k).isNone = true := by
    rw [fsLookup_fsSet_ne f _ hknl, hkey]; rfl
  have hl2 : decide (0 < lim) = true := decide_eq_true hlim
  have hfiles : fsRemove (fsRemove (fsSet f (lockName k) (mkFile [])) (lockName k))
      (tmpName k) = f := by
    rw [h1]
    simp [fsRemove, fsRemove_absent f _ hlock, fsRemove_absent f _ htmp]
  unfold put
  rw [hv]
  simp only [Bool.not_true, Bool.false_eq_true, if_false, ite_false]
  unfold putBlocking
  simp [htmp, hlock, hnp, hl2, hfiles]

/-- The free-space condition of `put` is skipped for an empty payload. -/
theorem space_cond_false_nil (env : Env) :
    (!(List.isEmpty ([] : List Nat)) && env.statvfsOk
      && decide (env.availSpace < List.length ([] : List Nat) + 4096)) = false := by
  simp

/-- Shape of a successful `put` of a new key on an unbounded store
(`limit = 0`): no admission permit is consumed. -/
theorem put_fresh0 (st : RwCache) (k : String) (d : List Nat) (env : Env)
    (hv : validateKey k = .ok ())
    (hde : st.dirExists = true) (hro : st.dirReadonly = false)
    (hkey : fsLookup st.files k = none)
    (hlock : fsLookup st.files (lockName k) = none)
    (htmp : fsLookup st.files (tmpName k) = none)
    (hlim : st.limit = 0)
    (hspc : (!d.isEmpty && env.statvfsOk && decide (env.availSpace < d.length + 4096)) = false)
    (hat : env.attemptErr 1 = none) :
    (put st k d env).res = .ok () ∧
      (put st k d env).stAfter =
        ⟨(k, mkFile d) :: st.files, true, false, st.limit, st.permits⟩ := by
  obtain ⟨f, de, ro, lim, pm⟩ := st
  simp only at hde hro hkey hlock htmp hlim
  subst hde; subst hro; subst hlim
  have hknl := key_ne_lockName k
  have hlnt := lockName_ne_tmpName k
  have h1 : fsSet f (lockName k) (mkFile []) = (lockName k, mkFile []) :: f := by
    rw [fsSet, fsRemove_absent f _ hlock]
  have hloop : putLoop (fsSet f (lockName k) (mkFile [])) k (lockName k) (tmpName k) d env
      [1, 2, 3] = (.ok (), (k, mkFile d) :: f, false) := by
    have hl : (fsLookup (fsSet (fsRemove (fsSet f (lockName k) (mkFile [])) (tmpName k)) k
        (mkFile d)) (lockName k)).isSome = true := by
      rw [fsLookup_fsSet_ne _ _ (Ne.symm hknl)]
      rw [h1]
      simp only [fsRemove, if_neg hlnt, fsRemove_absent f _ htmp]
      simp [fsLookup]
    rw [putLoop_succ _ _ _ _ _ _ hat hl]
    rw [h1]
    simp only [fsRemove, if_neg hlnt, fsRemove_absent f _ htmp]
    simp only [fsSet, fsRemove, if_neg (Ne.symm hknl), fsRemove_absent f _ hkey]
    simp only [fsRemove, if_neg hknl, if_pos rfl, fsRemove_absent f _ hlock]
    simp
  unfold put
  rw [hv]
  simp only [Bool.not_true, Bool.false_eq_true, if_false, ite_false]
  unfold putBlocking
  simp only [htmp, Option.map_none', Option.getD_none, hlock, Option.isSome_none,
    Bool.false_eq_true, if_false, Nat.lt_irrefl, decide_eq_false, Bool.and_false,
    hspc, hloop]
  simp

/-- Whenever the blocking body of `put` returns success, the key's file
holds exactly the payload just written. -/
theorem putBlocking_ok_lookup (st : RwCache) (k : String) (d : List Nat) (env : Env)
    (hok : (putBlocking st k d env).res = .ok ()) :
    fsLookup (putBlocking st k d env).stAfter.files k = some (mkFile d) := by
  have hknl := key_ne_lockName k
  unfold putBlocking at hok ⊢
  dsimp only at hok ⊢
  split at hok
  · simp at hok
  · rename_i h1
    split at hok
    · simp at hok
    · rename_i h2
      split at hok
      · simp at hok
      · rename_i h3
        split at hok
        · simp at hok
        · rename_i h4
          rw [if_neg h1, if_neg h2, if_neg h3, if_neg h4]
          dsimp only at hok ⊢
          exact putLoop_ok [1, 2, 3] (fsSet st.files (lockName k) (mkFile [])) k
            (lockName k) (tmpName k) d env hok hknl

/-! ## C1: put/get round-trip -/

/-- C1: for every valid key `k` and non-empty payload `d`, on a read-write
store, a `put k d` that returns success followed by `get k` on the same
store returns `some d` — exactly the bytes written. -/
theorem claim_c1_roundtrip (st : RwCache) (k : String) (d : List Nat) (env : Env)
    (hv : validateKey k = .ok ()) (hd : d ≠ [])
    (hok : (put st k d env).res = .ok ()) :
    fsGetVal (put st k d env).stAfter.files k = some d := by
  have hlk : fsLookup (put st k d env).stAfter.files k = some (mkFile d) := by
    unfold put at hok ⊢
    rw [hv] at hok ⊢
    by_cases hde : st.dirExists = true
    · rw [hde] at hok ⊢
      simp only [Bool.not_true, Bool.false_eq_true, if_false, ite_false] at hok ⊢
      by_cases hro : st.dirReadonly = true
      · rw [if_pos hro] at hok
        simp at hok
      · rw [if_neg hro] at hok ⊢
        exact putBlocking_ok_lookup _ _ _ _ hok
    · have hde2 : st.dirExists = false := by
        cases hx : st.dirExists
        · rfl
        · exact absurd hx hde
      rw [hde2] at hok ⊢
      simp only [Bool.not_false, if_true, ite_true] at hok ⊢
      exact putBlocking_ok_lookup _ _ _ _ hok
  unfold fsGetVal fsGet
  rw [hv, hlk]
  rfl

theorem claim_c1_roundtrip_witness :
    fsGetVal (put ⟨[], true, false, 10, 10⟩ "key1" [104, 105]
      ⟨true, 1000000, fun _ => none⟩).stAfter.files "key1" = some [104, 105] :=
  claim_c1_roundtrip ⟨[], true, false, 10, 10⟩ "key1" [104, 105]
    ⟨true, 1000000, fun _ => none⟩ (by rfl) (by decide) (by rfl)

/-! ## C3: empty payloads -/

/-- C3 counterexample: `put` with an empty payload on a fresh read-write
store does not fail with an empty-payload error — it succeeds and stores a
zero-length file for the key. -/
theorem claim_c3_counterexample :
    (put ⟨[], true, false, 10, 10⟩ "k" [] ⟨true, 1000000, fun _ => none⟩).res = .ok () ∧
      fsLookup (put ⟨[], true, false, 10, 10⟩ "k" []
        ⟨true, 1000000, fun _ => none⟩).stAfter.files "k" = some (mkFile []) := by
  constructor <;> rfl

/-- C3 amended: `put` never rejects an empty payload.  With the write path
succeeding (and admission available where required), `put k []` returns
success, stores a zero-length file for `k`, and leaves no lock or temp
artifact behind; the only special treatment of an empty payload is that
the free-space check is skipped. -/
theorem claim_c3_amended (st : RwCache) (k : String) (env : Env)
    (hv : validateKey k = .ok ())
    (hde : st.dirExists = true) (hro : st.dirReadonly = false)
    (hlock : fsLookup st.files (lockName k) = none)
    (htmp : fsLookup st.files (tmpName k) = none)
    (hadm : st.limit = 0 ∨ 0 < st.permits ∨ (fsLookup st.files k).isSome = true)
    (hat : env.attemptErr 1 = none) :
    (put st k [] env).res = .ok () ∧
      fsLookup (put st k [] env).stAfter.files k = some (mkFile []) ∧
      fsLookup (put st k [] env).stAfter.files (lockName k) = none ∧
      fsLookup (put st k [] env).stAfter.files (tmpName k) = none := by
  have hknl := key_ne_lockName k
  have hknt := key_ne_tmpName k
  cases hkey : fsLookup st.files k with
  | some fd0 =>
    obtain ⟨hres, hstate⟩ := put_overwrite st k [] env fd0 hv hde hro hkey hlock htmp
      (space_cond_false_nil env) hat
    refine ⟨hres, ?_, ?_, ?_⟩ <;> rw [hstate]
    · simp [fsLookup]
    · have h2 : fsLookup (fsRemove st.files k) (lockName k) = none := by
        rw [fsLookup_fsRemove_ne st.files (Ne.symm hknl), hlock]
      simp [fsLookup, hknl, h2]
    · have h2 : fsLookup (fsRemove st.files k) (tmpName k) = none := by
        rw [fsLookup_fsRemove_ne st.files (Ne.symm hknt), htmp]
      simp [fsLookup, hknt, h2]
  | none =>
    have hfin : ∀ lim pm, (put st k [] env).stAfter =
        ⟨(k, mkFile []) :: st.files, true, false, lim, pm⟩ →
        fsLookup (put st k [] env).stAfter.files k = some (mkFile []) ∧
          fsLookup (put st k [] env).stAfter.files (lockName k) = none ∧
          fsLookup (put st k [] env).stAfter.files (tmpName k) = none := by
      intro lim pm hstate
      refine ⟨?_, ?_, ?_⟩ <;> rw [hstate]
      · simp [fsLookup]
      · simp [fsLookup, hknl, hlock]
      · simp [fsLookup, hknt, htmp]
    rcases Nat.eq_zero_or_pos st.limit with hlim | hlim
    · obtain ⟨hres, hstate⟩ := put_fresh0 st k [] env hv hde hro hkey hlock htmp hlim
        (space_cond_false_nil env) hat
      exact ⟨hres, hfin _ _ hstate⟩
    · rcases hadm with h0 | hp | hsome
      · exact absurd h0 (Nat.pos_iff_ne_zero.mp hlim)
      · obtain ⟨hres, hstate⟩ := put_fresh st k [] env hv hde hro hkey hlock htmp hlim hp
          (space_cond_false_nil env) hat
        exact ⟨hres, hfin _ _ hstate⟩
      · rw [hkey] at hsome
        simp at hsome

theorem claim_c3_amended_witness :
    (put ⟨[("other", mkFile [1])], true, false, 10, 9⟩ "k" []
        ⟨true, 1000000, fun _ => none⟩).res = .ok () ∧
      fsLookup (put ⟨[("other", mkFile [1])], true, false, 10, 9⟩ "k" []
        ⟨true, 1000000, fun _ => none⟩).stAfter.files "k" = some (mkFile []) ∧
      fsLookup (put ⟨[("other", mkFile [1])], true, false, 10, 9⟩ "k" []
        ⟨true, 1000000, fun _ => none⟩).stAfter.files (lockName "k") = none ∧
      fsLookup (put ⟨[("other", mkFile [1])], true, false, 10, 9⟩ "k" []
        ⟨true, 1000000, fun _ => none⟩).stAfter.files (tmpName "k") = none :=
  claim_c3_amended ⟨[("other", mkFile [1])], true, false, 10, 9⟩ "k"
    ⟨true, 1000000, fun _ => none⟩ (by rfl) rfl rfl (by rfl) (by rfl)
    (Or.inr (Or.inl (by decide))) rfl

/-! ## C4: admission tokens are not released on failing exit paths -/

/-- C4 (code bug): on `put`'s insufficient-space exit path the acquired
admission token is forgotten — permanently consumed — instead of released.
On a fresh store with `limit = 1`, a failed `put` of a new key leaves zero
keys stored but an empty permit pool, so a later `put` of a new key with
ample space also fails with `StorageFull`: tokens consumed no longer
equals distinct keys stored. -/
theorem claim_c4_token_leak :
    (put ⟨[], true, false, 1, 1⟩ "k" [5] ⟨true, 0, fun _ => none⟩).res
        = .error .storageFull ∧
      (put ⟨[], true, false, 1, 1⟩ "k" [5] ⟨true, 0, fun _ => none⟩).stAfter.files = [] ∧
      (put ⟨[], true, false, 1, 1⟩ "k" [5] ⟨true, 0, fun _ => none⟩).stAfter.permits = 0 ∧
      (put (put ⟨[], true, false, 1, 1⟩ "k" [5] ⟨true, 0, fun _ => none⟩).stAfter "k2" [5]
        ⟨true, 1000000, fun _ => none⟩).res = .error .storageFull := by
  exact ⟨rfl, rfl, rfl, rfl⟩

/-! ## C7: invalid keys are rejected before any filesystem operation -/

/-- C7: for every invalid key — empty, containing `'/'`, containing NUL,
starting with `'.'`, or longer than 255 bytes — `get` returns `none` and
`put` returns the `InvalidInput` error, in both cases with an empty
filesystem trace and (for `put`) an unchanged store. -/
theorem claim_c7_invalid_keys (key : String) (fs : Dir) (st : RwCache) (d : List Nat)
    (env : Env)
    (hbad : key = "" ∨ key.data.contains '/' = true ∨
      key.data.contains (Char.ofNat 0) = true ∨ headIsDot key.data = true ∨
      255 < byteLen key.data) :
    fsGet fs key = (none, []) ∧ put st key d env = ⟨.error .invalidInput, st, []⟩ := by
  have hverr : validateKey key = .error .invalidInput := by
    rcases validateKey_cases key with hok | herr
    · obtain ⟨h1, h2, h3, h4, h5⟩ := validateKey_ok_facts key hok
      rcases hbad with hb | hb | hb | hb | hb
      · exact absurd hb h1
      · rw [h3] at hb; exact absurd hb (by simp)
      · rw [h4] at hb; exact absurd hb (by simp)
      · rw [h5] at hb; exact absurd hb (by simp)
      · omega
    · exact herr
  constructor
  · unfold fsGet
    rw [hverr]
  · unfold put
    rw [hverr]

theorem claim_c7_invalid_keys_witness :
    (fsGet [] "" = (none, []) ∧
      put ⟨[], true, false, 1, 1⟩ "" [1] ⟨true, 0, fun _ => none⟩
        = ⟨.error .invalidInput, ⟨[], true, false, 1, 1⟩, []⟩) ∧
    (fsGet [] "a/b" = (none, []) ∧
      put ⟨[], true, false, 1, 1⟩ "a/b" [1] ⟨true, 0, fun _ => none⟩
        = ⟨.error .invalidInput, ⟨[], true, false, 1, 1⟩, []⟩) ∧
    (fsGet [] ".hidden" = (none, []) ∧
      put ⟨[], true, false, 1, 1⟩ ".hidden" [1] ⟨true, 0, fun _ => none⟩
        = ⟨.error .invalidInput, ⟨[], true, false, 1, 1⟩, []⟩) :=
  ⟨claim_c7_invalid_keys "" [] ⟨[], true, false, 1, 1⟩ [1] ⟨true, 0, fun _ => none⟩
      (Or.inl rfl),
   claim_c7_invalid_keys "a/b" [] ⟨[], true, false, 1, 1⟩ [1] ⟨true, 0, fun _ => none⟩
      (Or.inr (Or.inl (by decide))),
   claim_c7_invalid_keys ".hidden" [] ⟨[], true, false, 1, 1⟩ [1] ⟨true, 0, fun _ => none⟩
      (Or.inr (Or.inr (Or.inr (Or.inl (by decide)))))⟩

/-! ## C5: startup recovery -/

theorem revStarts_head (l t1 t2 : List Char) (d1 d2 : Char) (hne : d1 ≠ d2)
    (h : revStarts l (d1 :: t1) = true) : revStarts l (d2 :: t2) = false := by
  cases l with
  | nil => simp [revStarts] at h
  | cons c cs =>
    simp only [revStarts, Bool.and_eq_true] at h
    have hc : c = d1 := eq_of_beq h.1
    have hcd : (c == d2) = false := by
      simp [hc, hne]
    simp only [revStarts, hcd, Bool.false_and]

theorem endsLock_not_endsTmp (s : String) (h : strEndsWith s ".lock" = true) :
    strEndsWith s ".tmp" = false := by
  unfold strEndsWith at h ⊢
  have h5 : ".lock".data.reverse = 'k' :: 'c' :: 'o' :: 'l' :: '.' :: [] := by decide
  have h4 : ".tmp".data.reverse = 'p' :: 'm' :: 't' :: '.' :: [] := by decide
  rw [h5] at h
  rw [h4]
  exact revStarts_head _ _ _ 'k' 'p' (by decide) h

/-- C5: re-opening a store read-write over an existing directory removes
every `*.tmp` entry unconditionally, removes every `*.lock` entry whose
modification time is older than 5 minutes (300 seconds), and leaves a
fresher `*.lock` entry untouched. -/
theorem claim_c5_startup_recovery (fs : Dir) (ro : Bool) (limit : Nat) (n : String)
    (fd : FileData) :
    (strEndsWith n ".tmp" = true → (n, fd) ∉ (writeConstruct true ro fs limit).files) ∧
    (strEndsWith n ".lock" = true → 300 < fd.age →
      (n, fd) ∉ (writeConstruct true ro fs limit).files) ∧
    (strEndsWith n ".lock" = true → fd.age ≤ 300 → (n, fd) ∈ fs →
      (n, fd) ∈ (writeConstruct true ro fs limit).files) := by
  have hwc : (writeConstruct true ro fs limit).files = cleanupTempFiles fs := by
    unfold writeConstruct
    simp
  rw [hwc]
  unfold cleanupTempFiles
  refine ⟨?_, ?_, ?_⟩
  · intro ht hmem
    have hk := (List.mem_filter.mp hmem).2
    simp [keepEntry, ht] at hk
  · intro hl hage hmem
    have hk := (List.mem_filter.mp hmem).2
    simp [keepEntry, endsLock_not_endsTmp n hl, hl, isLockFileStale, hage] at hk
  · intro hl hage hmem
    refine List.mem_filter.mpr ⟨hmem, ?_⟩
    simp [keepEntry, endsLock_not_endsTmp n hl, hl, isLockFileStale, Nat.not_lt.mpr hage]

theorem claim_c5_startup_recovery_witness :
    (("a.tmp", (⟨[1], false, 0⟩ : FileData)) ∉
      (writeConstruct true false [("a.tmp", ⟨[1], false, 0⟩), ("b.lock", ⟨[], false, 600⟩),
        ("c.lock", ⟨[], false, 10⟩)] 5).files) ∧
    (("b.lock", (⟨[], false, 600⟩ : FileData)) ∉
      (writeConstruct true false [("a.tmp", ⟨[1], false, 0⟩), ("b.lock", ⟨[], false, 600⟩),
        ("c.lock", ⟨[], false, 10⟩)] 5).files) ∧
    (("c.lock", (⟨[], false, 10⟩ : FileData)) ∈
      (writeConstruct true false [("a.tmp", ⟨[1], false, 0⟩), ("b.lock", ⟨[], false, 600⟩),
        ("c.lock", ⟨[], false, 10⟩)] 5).files) :=
  ⟨(claim_c5_startup_recovery _ false 5 "a.tmp" ⟨[1], false, 0⟩).1 (by decide),
   (claim_c5_startup_recovery _ false 5 "b.lock" ⟨[], false, 600⟩).2.1 (by decide) (by decide),
   (claim_c5_startup_recovery _ false 5 "c.lock" ⟨[], false, 10⟩).2.2 (by decide) (by decide)
     (by decide)⟩

/-! ## C8: read-only construction -/

instance exceptDecEq {e a : Type} [DecidableEq e] [DecidableEq a] :
    DecidableEq (Except e a) := fun x y => by
  cases x <;> cases y
  case error.error u v =>
    exact if h : u = v then isTrue (by rw [h]) else isFalse (fun hh => h (by injection hh))
  case error.ok u v => exact isFalse (fun hh => Except.noConfusion hh)
  case ok.error u v => exact isFalse (fun hh => Except.noConfusion hh)
  case ok.ok u v =>
    exact if h : u = v then isTrue (by rw [h]) else isFalse (fun hh => h (by injection hh))

/-- C8 counterexample: a successful read-only construction performs the
existence check, the open, and the permission read — and no advisory lock
operation at all (the claimed shared lock with a scoped-release guard is
absent from the constructor; it exists only in `get`). -/
theorem claim_c8_counterexample :
    readConstruct ⟨true, true⟩ = (.ok (), [.existsCheck, .openFile, .readMeta]) ∧
      FsOp.sharedLock ∉ (readConstruct ⟨true, true⟩).2 ∧
      FsOp.exclusiveLock ∉ (readConstruct ⟨true, true⟩).2 := by
  decide

/-- C8 amended: `openReadOnly` fails with `NotFound` when the path does
not exist and with `PermissionDenied` when its permissions are not
read-only; the permission check acquires no advisory lock (no lock
operation appears in its trace on any path). -/
theorem claim_c8_amended (p : RoPath) :
    (p.pathExists = false → readConstruct p = (.error .notFound, [.existsCheck])) ∧
    (p.pathExists = true → p.readonly = false →
      readConstruct p = (.error .permissionDenied, [.existsCheck, .openFile, .readMeta])) ∧
    (p.pathExists = true → p.readonly = true →
      readConstruct p = (.ok (), [.existsCheck, .openFile, .readMeta])) ∧
    (∀ op ∈ (readConstruct p).2, op ≠ FsOp.sharedLock ∧ op ≠ FsOp.exclusiveLock) := by
  obtain ⟨pe, ro⟩ := p
  cases pe <;> cases ro <;> decide

theorem claim_c8_amended_witness :
    readConstruct ⟨false, false⟩ = (.error .notFound, [.existsCheck]) ∧
      readConstruct ⟨true, false⟩
        = (.error .permissionDenied, [.existsCheck, .openFile, .readMeta]) ∧
      readConstruct ⟨true, true⟩ = (.ok (), [.existsCheck, .openFile, .readMeta]) :=
  ⟨(claim_c8_amended ⟨false, false⟩).1 rfl,
   (claim_c8_amended ⟨true, false⟩).2.1 rfl rfl,
   (claim_c8_amended ⟨true, true⟩).2.2.1 rfl rfl⟩

/-! ## C10: disabled sub-configurations at construction -/

/-- C10: constructing the orchestrator from a configuration whose sideload
or disk sub-configuration is present but disabled fails (the sub-config's
conversion error propagates), while a present-but-disabled memory
sub-configuration does not fail construction and yields an orchestrator
without a memory tier. -/
theorem claim_c10_disabled_subconfigs (cfg : OmneCacheCfgM)
    (world : String → Option (Bool × Dir)) :
    (∀ s, cfg.sideload = some s → s.disabled = true →
      ∃ e, tryFrom cfg world = .error e) ∧
    (∀ dk, cfg.disk = some dk → dk.disabled = true →
      ∃ e, tryFrom cfg world = .error e) ∧
    (∀ m, cfg.memory = some m → m.disabled = true →
      (∀ s, cfg.sideload = some s → ∃ sl, sideAsFsCache s world = .ok sl) →
      (∀ dk, cfg.disk = some dk → ∃ dc, diskAsFsCache dk world = .ok dc) →
      ∃ oc, tryFrom cfg world = .ok oc ∧ oc.memory = none) := by
  refine ⟨?_, ?_, ?_⟩
  · intro s hs hdis
    have hval : sideAsFsCache s world = .error .otherErr := by
      unfold sideAsFsCache
      rw [hdis]
      rfl
    unfold tryFrom
    cases hm : (match cfg.memory with
                | some m => if !m.disabled then (lruCacheOf m).map some else .ok none
                | none => .ok none) with
    | error e => exact ⟨e, rfl⟩
    | ok memory =>
      refine ⟨.otherErr, ?_⟩
      simp [hs, hval, Except.map]
  · intro dk hdk hdis
    have hval : diskAsFsCache dk world = .error .otherErr := by
      unfold diskAsFsCache
      rw [hdis]
      rfl
    unfold tryFrom
    cases hm : (match cfg.memory with
                | some m => if !m.disabled then (lruCacheOf m).map some else .ok none
                | none => .ok none) with
    | error e => exact ⟨e, rfl⟩
    | ok memory =>
      cases hsd : (match cfg.sideload with
                   | some s => (sideAsFsCache s world).map some
                   | none => .ok none) with
      | error e => exact ⟨e, rfl⟩
      | ok sideload =>
        refine ⟨.otherErr, ?_⟩
        simp [hdk, hval, Except.map]
  · intro m hm hdis hside hdisk
    have hmem : (match cfg.memory with
        | some mm => if !mm.disabled then (lruCacheOf mm).map some else .ok none
        | none => .ok none) = (Except.ok none : Except ErrKind (Option MemCache)) := by
      rw [hm]
      dsimp only
      rw [hdis]
      simp
    unfold tryFrom
    rw [hmem]
    cases hsc : cfg.sideload with
    | some s =>
      obtain ⟨sl, hsl⟩ := hside s hsc
      cases hdc : cfg.disk with
      | some dk =>
        obtain ⟨dc, hdcv⟩ := hdisk dk hdc
        refine ⟨⟨none, some sl, some dc⟩, ?_, rfl⟩
        simp [hsl, hdcv, Except.map]
      | none =>
        refine ⟨⟨none, some sl, none⟩, ?_, rfl⟩
        simp [hsl, Except.map]
    | none =>
      cases hdc : cfg.disk with
      | some dk =>
        obtain ⟨dc, hdcv⟩ := hdisk dk hdc
        refine ⟨⟨none, none, some dc⟩, ?_, rfl⟩
        simp [hdcv, Except.map]
      | none => exact ⟨⟨none, none, none⟩, rfl, rfl⟩

theorem claim_c10_disabled_subconfigs_witness :
    (∃ e, tryFrom ⟨none, some ⟨true, some "p", none⟩, none⟩ (fun _ => none) = .error e) ∧
    (∃ e, tryFrom ⟨none, none, some ⟨true, some "p", some 5⟩⟩ (fun _ => none) = .error e) ∧
    (∃ oc, tryFrom ⟨some ⟨true, some 5⟩, none, none⟩ (fun _ => none) = .ok oc ∧
      oc.memory = none) :=
  ⟨(claim_c10_disabled_subconfigs ⟨none, some ⟨true, some "p", none⟩, none⟩
      (fun _ => none)).1 ⟨true, some "p", none⟩ rfl rfl,
   (claim_c10_disabled_subconfigs ⟨none, none, some ⟨true, some "p", some 5⟩⟩
      (fun _ => none)).2.1 ⟨true, some "p", some 5⟩ rfl rfl,
   (claim_c10_disabled_subconfigs ⟨some ⟨true, some 5⟩, none, none⟩
      (fun _ => none)).2.2 ⟨true, some 5⟩ rfl rfl
      (fun s hs => nomatch hs) (fun dk hdk => nomatch hdk)⟩

/-! ## C9: artifact naming -/

/-- C9 counterexample: the lock and temp paths are not formed by appending
to the full key — Rust's `with_extension` replaces the key's extension —
and the two distinct valid keys `a.b` and `a.c` share both artifact
paths. -/
theorem claim_c9_counterexample :
    tmpName "a.b" = "a..tmp" ∧ lockName "a.b" = "a..lock" ∧
      tmpName "a.b" ≠ "a.b.tmp" ∧ lockName "a.b" ≠ "a.b.lock" ∧
      ("a.b" : String) ≠ "a.c" ∧ validateKey "a.b" = .ok () ∧
      validateKey "a.c" = .ok () ∧ tmpName "a.b" = tmpName "a.c" ∧
      lockName "a.b" = lockName "a.c" := by
  decide

/-- C9 amended: `put` derives its transient artifact names with
`with_extension`: the temp file is `stem ++ "..tmp"` and the lock file is
`stem ++ "..lock"`, where `stem` is the key with its final
extension removed (the final content file is still `<root>/<key>`).  Keys
that share a stem therefore share artifact paths, observable in `put`: a
store already holding a file named `lockName k` makes `put k` fail with
`AlreadyExists` even though no file for `k` itself exists. -/
theorem claim_c9_amended (st : RwCache) (k : String) (d : List Nat) (env : Env)
    (hv : validateKey k = .ok ())
    (hde : st.dirExists = true) (hro : st.dirReadonly = false)
    (hsym : ((fsLookup st.files (tmpName k)).map FileData.isSymlink).getD false = false)
    (hlock : (fsLookup st.files (lockName k)).isSome = true) :
    (put st k d env).res = .error .alreadyExists ∧
      lockName k = ⟨rustStemChars k.data ++ '.' :: ".lock".data⟩ ∧
      tmpName k = ⟨rustStemChars k.data ++ '.' :: ".tmp".data⟩ := by
  have h1 : lockName k = ⟨rustStemChars k.data ++ '.' :: ".lock".data⟩ := by
    unfold lockName setExtChars
    rw [if_neg (by decide : ¬(".lock".data = []))]
  have h2 : tmpName k = ⟨rustStemChars k.data ++ '.' :: ".tmp".data⟩ := by
    unfold tmpName setExtChars
    rw [if_neg (by decide : ¬(".tmp".data = []))]
  refine ⟨?_, h1, h2⟩
  unfold put
  rw [hv]
  simp only [hde, hro, Bool.not_true, Bool.false_eq_true, if_false, ite_false]
  unfold putBlocking
  simp only [hsym, Bool.false_eq_true, if_false, hlock, if_true]

theorem claim_c9_amended_witness :
    (put ⟨[("a..lock", mkFile [])], true, false, 5, 5⟩ "a.b" [1]
        ⟨true, 1000000, fun _ => none⟩).res = .error .alreadyExists ∧
      lockName "a.b" = ⟨rustStemChars "a.b".data ++ '.' :: ".lock".data⟩ ∧
      tmpName "a.b" = ⟨rustStemChars "a.b".data ++ '.' :: ".tmp".data⟩ :=
  claim_c9_amended ⟨[("a..lock", mkFile [])], true, false, 5, 5⟩ "a.b" [1]
    ⟨true, 1000000, fun _ => none⟩ (by rfl) rfl rfl (by rfl) (by rfl)

/-! ## C2: capacity admission -/

/-- Keys of two distinct entries do not collide with each other's file or
artifact names (`put` of one key must not see another key's stored file as
its own lock or temp path). -/
abbrev ArtSep (p q : String × List Nat) : Prop :=
  p.1 ≠ q.1 ∧ p.1 ≠ lockName q.1 ∧ p.1 ≠ tmpName q.1 ∧
    q.1 ≠ lockName p.1 ∧ q.1 ≠ tmpName p.1

theorem artSep_symm : Symmetric ArtSep := by
  intro p q h
  obtain ⟨a, b, c, d2, e⟩ := h
  exact ⟨Ne.symm a, d2, e, b, c⟩

theorem fsLookup_of_forall_ne (l : Dir) (n : String) (h : ∀ e ∈ l, e.1 ≠ n) :
    fsLookup l n = none := by
  induction l with
  | nil => rfl
  | cons e rest ih =>
    obtain ⟨m, fd⟩ := e
    have hm := h (m, fd) (by simp)
    simp only [fsLookup, if_neg hm]
    exact ih (fun e he => h e (by simp [he]))

theorem fsLookup_mem_distinct (l : Dir) (n : String) (fd : FileData)
    (hmem : (n, fd) ∈ l) (hdist : l.Pairwise (fun a b => a.1 ≠ b.1)) :
    fsLookup l n = some fd := by
  induction l with
  | nil => simp at hmem
  | cons e rest ih =>
    obtain ⟨m, g⟩ := e
    rcases List.mem_cons.mp hmem with he | he
    · cases he
      simp [fsLookup]
    · have hm : m ≠ n := (List.pairwise_cons.mp hdist).1 (n, fd) he
      simp only [fsLookup, if_neg hm]
      exact ih he (List.pairwise_cons.mp hdist).2

/-- Sequentially putting pairwise-separated fresh valid keys into a store
with enough permits succeeds, stores each payload, and consumes one permit
per key. -/
theorem putAll_fresh : ∀ (ps : List (String × List Nat)) (f : Dir) (lim pm : Nat)
    (env : Env),
    0 < lim → ps.length ≤ pm →
    (∀ p ∈ ps, validateKey p.1 = .ok () ∧
      (env.statvfsOk = true → p.2.length + 4096 ≤ env.availSpace)) →
    ps.Pairwise ArtSep →
    (∀ p ∈ ps, fsLookup f p.1 = none ∧ fsLookup f (lockName p.1) = none ∧
      fsLookup f (tmpName p.1) = none) →
    env.attemptErr 1 = none →
    putAll ⟨f, true, false, lim, pm⟩ env ps =
      (.ok (), ⟨(ps.map (fun p => (p.1, mkFile p.2))).reverse ++ f, true, false, lim,
        pm - ps.length⟩) := by
  intro ps
  induction ps with
  | nil =>
    intro f lim pm env hlim hlen hgood hsep hsto hat
    simp [putAll]
  | cons hd rest ih =>
    intro f lim pm env hlim hlen hgood hsep hsto hat
    obtain ⟨k, d⟩ := hd
    obtain ⟨hv, hsp⟩ := hgood (k, d) (by simp)
    obtain ⟨hkey, hlock, htmp⟩ := hsto (k, d) (by simp)
    simp only [List.length_cons] at hlen
    have hpm : 0 < pm := by omega
    obtain ⟨hres, hstate⟩ := put_fresh ⟨f, true, false, lim, pm⟩ k d env hv rfl rfl hkey
      hlock htmp hlim hpm (space_cond_false d env hsp) hat
    have hsep' := List.pairwise_cons.mp hsep
    have hstored : ∀ p ∈ rest, fsLookup ((k, mkFile d) :: f) p.1 = none ∧
        fsLookup ((k, mkFile d) :: f) (lockName p.1) = none ∧
        fsLookup ((k, mkFile d) :: f) (tmpName p.1) = none := by
      intro p hp
      obtain ⟨h1, h2, h3, h4, h5⟩ := hsep'.1 p hp
      obtain ⟨g1, g2, g3⟩ := hsto p (by simp [hp])
      refine ⟨?_, ?_, ?_⟩
      · simp only [fsLookup, if_neg h1]; exact g1
      · simp only [fsLookup, if_neg h2]; exact g2
      · simp only [fsLookup, if_neg h3]; exact g3
    have hIH := ih ((k, mkFile d) :: f) lim (pm - 1) env hlim (by omega)
      (fun p hp => hgood p (by simp [hp])) hsep'.2 hstored hat
    simp only [putAll]
    rw [hres]
    dsimp only
    rw [hstate, hIH]
    have hpm2 : pm - 1 - rest.length = pm - (rest.length + 1) := by omega
    simp [hpm2, List.reverse_cons, List.append_assoc]

/-- C2 counterexample: over an empty directory with `limit = 2`, two
distinct valid keys with non-empty payloads do not both store — the second
`put` fails with `AlreadyExists` (not `StorageFull`) because the stored
key `k..lock` is exactly the lock-file path `put` derives for the key
`k`. -/
theorem claim_c2_counterexample :
    validateKey "k..lock" = .ok () ∧ validateKey "k" = .ok () ∧
      ("k..lock" : String) ≠ "k" ∧
      (putAll (writeConstruct true false [] 2) ⟨true, 1000000, fun _ => none⟩
        [("k..lock", [1]), ("k", [2])]).1 = .error .alreadyExists := by
  exact ⟨by decide, by decide, by decide, by rfl⟩

/-- C2 amended: over an empty directory with `limit = N > 0`, sequential
`put`s of `N` distinct valid keys with non-empty payloads — where
additionally no chosen key equals the lock or temp artifact name derived
from another chosen key — all succeed and consume all `N` admission
permits; a further distinct fresh key (also clear of the stored keys and
their artifact names) then fails with `StorageFull`; and overwriting any
already-stored key still succeeds without consuming a permit. -/
theorem claim_c2_amended (N : Nat) (ps : List (String × List Nat)) (env : Env)
    (hN : ps.length = N) (hpos : 0 < N)
    (hgood : ∀ p ∈ ps, validateKey p.1 = .ok () ∧ p.2 ≠ [] ∧
      (env.statvfsOk = true → p.2.length + 4096 ≤ env.availSpace))
    (hsep : ps.Pairwise ArtSep)
    (hat : env.attemptErr 1 = none) :
    ∃ stf, putAll (writeConstruct true false [] N) env ps = (.ok (), stf) ∧
      stf.permits = 0 ∧
      (∀ p ∈ ps, fsLookup stf.files p.1 = some (mkFile p.2)) ∧
      (∀ k' d', validateKey k' = .ok () →
        (env.statvfsOk = true → d'.length + 4096 ≤ env.availSpace) →
        (∀ p ∈ ps, k' ≠ p.1 ∧ lockName k' ≠ p.1 ∧ tmpName k' ≠ p.1) →
        (put stf k' d' env).res = .error .storageFull) ∧
      (∀ p ∈ ps, ∀ d', (env.statvfsOk = true → d'.length + 4096 ≤ env.availSpace) →
        (put stf p.1 d' env).res = .ok () ∧
          (put stf p.1 d' env).stAfter.permits = 0) := by
  have h0 : writeConstruct true false [] N = ⟨[], true, false, N, N⟩ := by
    simp [writeConstruct, cleanupTempFiles]
  have hrun := putAll_fresh ps [] N N env hpos (by omega)
    (fun p hp => ⟨(hgood p hp).1, (hgood p hp).2.2⟩) hsep
    (fun p hp => ⟨rfl, rfl, rfl⟩) hat
  rw [h0, hrun]
  have hNN : N - ps.length = 0 := by omega
  set entries := (ps.map (fun p => (p.1, mkFile p.2))).reverse with hentries
  refine ⟨⟨entries ++ [], true, false, N, N - ps.length⟩, rfl, by simp [hNN], ?_, ?_, ?_⟩
  · -- every stored key's file holds its payload
    intro p hp
    have hdist : entries.Pairwise (fun a b => a.1 ≠ b.1) := by
      rw [hentries, List.pairwise_reverse, List.pairwise_map]
      exact hsep.imp (fun h => Ne.symm h.1)
    have hmem : (p.1, mkFile p.2) ∈ entries := by
      rw [hentries, List.mem_reverse, List.mem_map]
      exact ⟨p, hp, rfl⟩
    simp only [List.append_nil]
    exact fsLookup_mem_distinct entries p.1 (mkFile p.2) hmem hdist
  · -- a fresh (N+1)-th key is rejected with StorageFull
    intro k' d' hv' hsp' hdisj
    have habs : ∀ n' : String, (∀ p ∈ ps, n' ≠ p.1) →
        fsLookup (entries ++ []) n' = none := by
      intro n' hn
      apply fsLookup_of_forall_ne
      intro e he
      rw [List.append_nil, hentries, List.mem_reverse, List.mem_map] at he
      obtain ⟨q, hq, hqe⟩ := he
      rw [← hqe]
      exact Ne.symm (hn q hq)
    exact (put_full ⟨entries ++ [], true, false, N, N - ps.length⟩ k' d' env hv' rfl rfl
      (habs k' (fun p hp => (hdisj p hp).1))
      (habs (lockName k') (fun p hp => (hdisj p hp).2.1))
      (habs (tmpName k') (fun p hp => (hdisj p hp).2.2))
      hpos (by simp [hNN])).1
  · -- overwriting any stored key still succeeds, consuming nothing
    intro p hp d' hsp'
    have hdist : entries.Pairwise (fun a b => a.1 ≠ b.1) := by
      rw [hentries, List.pairwise_reverse, List.pairwise_map]
      exact hsep.imp (fun h => Ne.symm h.1)
    have hmem : (p.1, mkFile p.2) ∈ entries := by
      rw [hentries, List.mem_reverse, List.mem_map]
      exact ⟨p, hp, rfl⟩
    have hkeyv : fsLookup (entries ++ []) p.1 = some (mkFile p.2) := by
      simp only [List.append_nil]
      exact fsLookup_mem_distinct entries p.1 (mkFile p.2) hmem hdist
    have habs : ∀ n' : String, p.1 ≠ n' → (∀ q ∈ ps, q ≠ p → q.1 ≠ n') →
        fsLookup (entries ++ []) n' = none := by
      intro n' hself hn
      apply fsLookup_of_forall_ne
      intro e he
      rw [List.append_nil, hentries, List.mem_reverse, List.mem_map] at he
      obtain ⟨q, hq, hqe⟩ := he
      rw [← hqe]
      by_cases hqp : q = p
      · rw [hqp]; exact hself
      · exact hn q hq hqp
    have hlockabs : fsLookup (entries ++ []) (lockName p.1) = none := by
      apply habs (lockName p.1) (key_ne_lockName p.1)
      intro q hq hqp
      exact (List.Pairwise.forall artSep_symm hsep hq hp hqp).2.1
    have htmpabs : fsLookup (entries ++ []) (tmpName p.1) = none := by
      apply habs (tmpName p.1) (key_ne_tmpName p.1)
      intro q hq hqp
      exact (List.Pairwise.forall artSep_symm hsep hq hp hqp).2.2.1
    obtain ⟨hres, hstate⟩ := put_overwrite ⟨entries ++ [], true, false, N, N - ps.length⟩
      p.1 d' env (mkFile p.2) (hgood p hp).1 rfl rfl hkeyv hlockabs htmpabs
      (space_cond_false d' env hsp') hat
    refine ⟨hres, ?_⟩
    rw [hstate]
    simp [hNN]

theorem claim_c2_amended_witness :
    ∃ stf, putAll (writeConstruct true false [] 2) ⟨true, 10000, fun _ => none⟩
        [("k1", [1]), ("k2", [2])] = (.ok (), stf) ∧
      stf.permits = 0 ∧
      (∀ p ∈ [("k1", [1]), ("k2", [2])], fsLookup stf.files p.1 = some (mkFile p.2)) ∧
      (∀ k' d', validateKey k' = .ok () →
        (true = true → List.length d' + 4096 ≤ 10000) →
        (∀ p ∈ [("k1", [1]), ("k2", [2])],
          k' ≠ p.1 ∧ lockName k' ≠ p.1 ∧ tmpName k' ≠ p.1) →
        (put stf k' d' ⟨true, 10000, fun _ => none⟩).res = .error .storageFull) ∧
      (∀ p ∈ [("k1", [1]), ("k2", [2])], ∀ d',
        (true = true → List.length d' + 4096 ≤ 10000) →
        (put stf p.1 d' ⟨true, 10000, fun _ => none⟩).res = .ok () ∧
          (put stf p.1 d' ⟨true, 10000, fun _ => none⟩).stAfter.permits = 0) :=
  claim_c2_amended 2 [("k1", [1]), ("k2", [2])] ⟨true, 10000, fun _ => none⟩ rfl
    (by decide) (by decide) (by decide) rfl

/-! ## C6: tiered get — fixed order, first hit, promotion -/

theorem lruGet_miss (m : MemCache) (k : String) (h : lruFind m.entries k = none) :
    lruGet m k = (none, m) := by
  unfold lruGet
  rw [h]

theorem lruGet_after_put (m : MemCache) (k : String) (v : List Nat) (hcap : 0 < m.cap) :
    ∃ m'', lruGet (lruPut m k v) k = (some v, m'') := by
  obtain ⟨cap, entries⟩ := m
  simp only at hcap
  cases cap with
  | zero => exact absurd hcap (by simp)
  | succ cp =>
    have hput : lruPut ⟨cp + 1, entries⟩ k v
        = ⟨cp + 1, (k, v) :: (memRemove entries k).take cp⟩ := by
      simp [lruPut, List.take_succ_cons]
    have hfind : lruFind ((k, v) :: (memRemove entries k).take cp) k = some v := by
      simp [lruFind]
    refine ⟨⟨cp + 1, (k, v) :: memRemove ((k, v) :: (memRemove entries k).take cp) k⟩, ?_⟩
    rw [hput]
    unfold lruGet
    rw [hfind]

/-- C6: the orchestrator's `get` descends memory, then sideload, then
disk, stopping at the first hit; a value found only in the sideload or
disk tier is written into the memory tier (when enabled) during the same
call, so a subsequent `get` of the same key is answered by the memory tier
alone, with no durable-tier query; when no tier has the key the result is
the `NotFound` error. -/
theorem claim_c6_tiered_get (c : OmneCacheM) (key : String) :
    (∀ m v m', c.memory = some m → lruGet m key = (some v, m') →
      ocGet c key = (.ok v, { c with memory := some m' }, [Tier.mem])) ∧
    (∀ m sl v, c.memory = some m → lruFind m.entries key = none →
      c.sideload = some sl → fsGetVal sl key = some v →
      ocGet c key = (.ok v, { c with memory := some (lruPut m key v) },
        [Tier.mem, Tier.side]) ∧
      (0 < m.cap → ∃ m'', ocGet { c with memory := some (lruPut m key v) } key
        = (.ok v, { c with memory := some m'' }, [Tier.mem]))) ∧
    (∀ m v dc, c.memory = some m → lruFind m.entries key = none →
      c.disk = some dc → fsGetVal dc.files key = some v →
      ((c.sideload = none →
        ocGet c key = (.ok v, { c with memory := some (lruPut m key v) },
          [Tier.mem, Tier.disk])) ∧
       (∀ sl, c.sideload = some sl → fsGetVal sl key = none →
        ocGet c key = (.ok v, { c with memory := some (lruPut m key v) },
          [Tier.mem, Tier.side, Tier.disk]))) ∧
      (0 < m.cap → ∃ m'', ocGet { c with memory := some (lruPut m key v) } key
        = (.ok v, { c with memory := some m'' }, [Tier.mem]))) ∧
    ((c.memory = none ∨ ∃ m, c.memory = some m ∧ lruFind m.entries key = none) →
      (c.sideload = none ∨ ∃ sl, c.sideload = some sl ∧ fsGetVal sl key = none) →
      (c.disk = none ∨ ∃ dc, c.disk = some dc ∧ fsGetVal dc.files key = none) →
      (ocGet c key).1 = .error .notFound) := by
  refine ⟨?_, ?_, ?_, ?_⟩
  · intro m v m' hm hg
    unfold ocGet
    rw [hm]
    dsimp only
    rw [hg]
  · intro m sl v hm hf hsl hv
    constructor
    · unfold ocGet
      rw [hm]
      dsimp only
      rw [lruGet_miss m key hf]
      unfold ocGetSide
      dsimp only
      rw [hsl]
      dsimp only
      rw [hv]
      rfl
    · intro hcap
      obtain ⟨m'', hget⟩ := lruGet_after_put m key v hcap
      refine ⟨m'', ?_⟩
      unfold ocGet
      dsimp only
      rw [hget]
  · intro m v dc hm hf hdc hv
    constructor
    · constructor
      · intro hsc
        unfold ocGet
        rw [hm]
        dsimp only
        rw [lruGet_miss m key hf]
        unfold ocGetSide
        dsimp only
        rw [hsc]
        dsimp only
        unfold ocGetDisk
        dsimp only
        rw [hdc]
        dsimp only
        rw [hv]
        rfl
      · intro sl hsl hsf
        unfold ocGet
        rw [hm]
        dsimp only
        rw [lruGet_miss m key hf]
        unfold ocGetSide
        dsimp only
        rw [hsl]
        dsimp only
        rw [hsf]
        unfold ocGetDisk
        dsimp only
        rw [hdc]
        dsimp only
        rw [hv]
        rfl
    · intro hcap
      obtain ⟨m'', hget⟩ := lruGet_after_put m key v hcap
      refine ⟨m'', ?_⟩
      unfold ocGet
      dsimp only
      rw [hget]
  · intro h1 h2 h3
    rcases h1 with hm | ⟨m, hm, hf⟩ <;>
      rcases h2 with hs | ⟨sl, hs, hsf⟩ <;>
        rcases h3 with hd | ⟨dc, hd, hdf⟩ <;>
          simp [ocGet, ocGetSide, ocGetDisk, lruGet, *]

theorem claim_c6_tiered_get_witness :
    ocGet ⟨some ⟨2, [("k", [7])]⟩, none, none⟩ "k"
      = (.ok [7], ⟨some ⟨2, [("k", [7])]⟩, none, none⟩, [Tier.mem]) ∧
    ocGet ⟨some ⟨2, []⟩, some [("k", mkFile [8])], none⟩ "k"
      = (.ok [8], ⟨some (lruPut ⟨2, []⟩ "k" [8]), some [("k", mkFile [8])], none⟩,
        [Tier.mem, Tier.side]) ∧
    (∃ m'', ocGet ⟨some (lruPut ⟨2, []⟩ "k" [8]), some [("k", mkFile [8])], none⟩ "k"
      = (.ok [8], ⟨some m'', some [("k", mkFile [8])], none⟩, [Tier.mem])) ∧
    ocGet ⟨some ⟨2, []⟩, none, some ⟨[("k", mkFile [9])], true, false, 5, 5⟩⟩ "k"
      = (.ok [9], ⟨some (lruPut ⟨2, []⟩ "k" [9]), none,
        some ⟨[("k", mkFile [9])], true, false, 5, 5⟩⟩, [Tier.mem, Tier.disk]) ∧
    (ocGet ⟨some ⟨2, []⟩, none, none⟩ "k").1 = .error .notFound :=
  ⟨(claim_c6_tiered_get ⟨some ⟨2, [("k", [7])]⟩, none, none⟩ "k").1
      ⟨2, [("k", [7])]⟩ [7] ⟨2, [("k", [7])]⟩ rfl (by rfl),
   ((claim_c6_tiered_get ⟨some ⟨2, []⟩, some [("k", mkFile [8])], none⟩ "k").2.1
      ⟨2, []⟩ [("k", mkFile [8])] [8] rfl rfl rfl (by rfl)).1,
   ((claim_c6_tiered_get ⟨some ⟨2, []⟩, some [("k", mkFile [8])], none⟩ "k").2.1
      ⟨2, []⟩ [("k", mkFile [8])] [8] rfl rfl rfl (by rfl)).2 (by decide),
   (((claim_c6_tiered_get ⟨some ⟨2, []⟩, none,
        some ⟨[("k", mkFile [9])], true, false, 5, 5⟩⟩ "k").2.2.1
      ⟨2, []⟩ [9] ⟨[("k", mkFile [9])], true, false, 5, 5⟩ rfl rfl rfl (by rfl)).1).1 rfl,
   (claim_c6_tiered_get ⟨some ⟨2, []⟩, none, none⟩ "k").2.2.2
      (Or.inr ⟨⟨2, []⟩, rfl, rfl⟩) (Or.inl rfl) (Or.inl rfl)⟩
